import Mathlib

/-!
Verification of mika/screenshot-compare.

Shallow embedding of `screenshot-compare.go` and theorems about its
comparison pipeline: the duration-specifier parser, the timeout race in
`main`, pixel conversion (`toNRGBA`, `toYUV`), the alpha-weighted scan
(`compareImages`), the score aggregation and clamp, and the dimension
check of `CompareImages`.

Modelling conventions:
- Go strings are lists of characters; `strings.TrimSpace` and
  `strings.ToLower` are modelled on the ASCII range, which covers every
  character the program treats specially.
- `time.Duration` is a nanosecond count (an int64 in Go); the unit
  multiplication wraps at the int64 boundary as in Go.
- float64 arithmetic is modelled over the exact reals; the one NaN the
  code can produce (the mean 0/0 at a zero pixel count) is tracked
  explicitly by `FVal.nan`, and a runtime abort (Go panic) by `Option`.
-/

namespace ScreenshotCompare

/-! ### Duration specifier parsing (`readDurationSpecifier`, go lines 99-133) -/

/-- ASCII whitespace removed by `strings.TrimSpace`. -/
def isSpaceGo (c : Char) : Bool :=
  c == ' ' || c == '\t' || c == '\n' || c == '\x0b' || c == '\x0c' || c == '\r'

/-- Model of `strings.TrimSpace`: drop whitespace from both ends. -/
def trimSpace (s : List Char) : List Char :=
  ((s.dropWhile isSpaceGo).reverse.dropWhile isSpaceGo).reverse

/-- Model of `strings.ToLower`, restricted to ASCII letters. -/
def toLowerGo (c : Char) : Char :=
  if 65 ≤ c.toNat && c.toNat ≤ 90 then Char.ofNat (c.toNat + 32) else c

/-- The digit test of go lines 108 and 117. -/
def isDigitGo (c : Char) : Bool := 48 ≤ c.toNat && c.toNat ≤ 57

/-- Numeric value of an ASCII digit. -/
def digitVal (c : Char) : ℕ := c.toNat - 48

/-- Decimal digit run as `strconv.Atoi` reads it: empty input or any
non-digit character is an error. -/
def parseDigits (s : List Char) : Option ℕ :=
  if s = [] then none
  else if s.all isDigitGo then some (s.foldl (fun acc c => 10 * acc + digitVal c) 0)
  else none

/-- The optional leading sign `strconv.Atoi` strips. -/
def stripSign (s : List Char) : List Char :=
  match s with
  | c :: rest => if c == '+' || c == '-' then rest else s
  | [] => []

def int64Min : ℤ := -(2 ^ 63)

def int64Max : ℤ := 2 ^ 63 - 1

/-- Model of `strconv.Atoi`: optional sign, decimal digits, int64 range;
anything else (including an out-of-range value) is an error (`none`). -/
def atoi (s : List Char) : Option ℤ :=
  let neg : Bool := match s with | c :: _ => c == '-' | [] => false
  match parseDigits (stripSign s) with
  | none => none
  | some n =>
      let v : ℤ := if neg then -(n : ℤ) else (n : ℤ)
      if int64Min ≤ v ∧ v ≤ int64Max then some v else none

/-- time.Millisecond in nanoseconds. -/
def Millisecond : ℤ := 1000000

/-- time.Second in nanoseconds. -/
def Second : ℤ := 1000000000

/-- time.Minute in nanoseconds. -/
def Minute : ℤ := 60 * Second

/-- time.Hour in nanoseconds. -/
def Hour : ℤ := 60 * Minute

/-- Wraparound of the int64 multiplication `time.Duration(val) * unit`. -/
def wrap64 (x : ℤ) : ℤ := (x + 2 ^ 63) % 2 ^ 64 - 2 ^ 63

/-- Core of `readDurationSpecifier` after the `ToLower(TrimSpace(s))`
normalisation (go lines 103-132): reject the empty string; if the last
character is a digit parse the whole string as the value (seconds),
otherwise parse all but the last character and dispatch on the suffix. -/
def readDurationCore (s : List Char) : Option ℤ :=
  match s.reverse with
  | [] => none
  | lastc :: _ =>
    let endIdx := if isDigitGo lastc then s.length else s.length - 1
    match atoi (s.take endIdx) with
    | none => none
    | some val =>
      if isDigitGo lastc then some (wrap64 (val * Second))
      else if lastc == 'i' then some (wrap64 (val * Millisecond))
      else if lastc == 's' then some (wrap64 (val * Second))
      else if lastc == 'm' then some (wrap64 (val * Minute))
      else if lastc == 'h' then some (wrap64 (val * Hour))
      else none

/-- Model of `readDurationSpecifier` (go lines 99-133): `none` where Go
returns a non-nil error, otherwise the parsed duration in nanoseconds. -/
def readDurationSpecifier (s0 : List Char) : Option ℤ :=
  readDurationCore ((trimSpace s0).map toLowerGo)

/-- Is the character one of the unit suffixes i, s, m, h. -/
def suffixOk (c : Char) : Bool := c == 'i' || c == 's' || c == 'm' || c == 'h'

/-- The shape named by the specification: a nonempty unsigned decimal
integer, optionally followed by one unit suffix. -/
def unsignedDurShape (s : List Char) : Bool :=
  (!s.isEmpty && s.all isDigitGo) ||
  (match s.reverse with
   | c :: d :: t => suffixOk c && (d :: t).all isDigitGo
   | _ => false)

/-- The shape the code actually accepts: an optional leading sign, then
the unsigned shape. -/
def signedDurShape (s : List Char) : Bool := unsignedDurShape (stripSign s)

/-! ### The timeout race (`main`, go lines 309-355) -/

/-- The two values the buffered result channel can carry: `false` sent by
the timer goroutine, `true` sent by the comparison worker. -/
inductive RaceMsg where
  | timedOut : RaceMsg
  | completed : RaceMsg
deriving DecidableEq

/-- Go lines 311-316: after sleeping, the timer goroutine sends on the
channel only when the configured timeout is positive. -/
def timerSignals (timeout : ℤ) : Bool := decide (0 < timeout)

/-- Which messages can ever be placed on the result channel for a given
timeout: the worker sends `completed` when the scan finishes (go line
342); the timer can add `timedOut` only when `timerSignals` holds. -/
def canArrive (timeout : ℤ) : RaceMsg → Bool
  | RaceMsg.timedOut => timerSignals timeout
  | RaceMsg.completed => true

/-- Go lines 346-355: exit 102 on a timeout message, otherwise the
percentage-derived exit code of the completed comparison. -/
def exitAfterRace (m : RaceMsg) (percentExit : ℤ) : ℤ :=
  match m with
  | RaceMsg.timedOut => 102
  | RaceMsg.completed => percentExit

/-! ### Images and pixels (`img`, go lines 82-87)

A pixel holds the four channel values `Color.RGBA()` returns: red, green,
blue and alpha, premultiplied, carried in uint32 values that are at most
0xFFFF for every color of the standard library. An image is a pixel grid
with the explicit width and height `readImageMetadata` stores; `pix x y`
stands for `i.At(x, y).RGBA()`. The source format tag `f` plays no role
in the comparison and is omitted. -/

structure Pixel where
  r : ℕ
  g : ℕ
  b : ℕ
  a : ℕ
deriving DecidableEq

structure img where
  w : ℕ
  h : ℕ
  pix : ℕ → ℕ → Pixel

/-- Well-formed pixel data: every channel in the 16-bit range `RGBA()`
promises. -/
def wellFormed (i : img) : Prop :=
  ∀ x y, (i.pix x y).r ≤ 0xFFFF ∧ (i.pix x y).g ≤ 0xFFFF ∧
    (i.pix x y).b ≤ 0xFFFF ∧ (i.pix x y).a ≤ 0xFFFF

/-- Model of `toNRGBA` (go lines 211-218). `float64(a) == 0.0` holds
exactly when the uint32 `a` is 0 (float64 is exact below 2^53), and the
uint32 product `r*0xFFFF` wraps modulo 2^32. -/
noncomputable def toNRGBA (r g b a : ℕ) : ℝ × ℝ × ℝ × ℝ :=
  if a = 0 then (0, 0, 0, 0)
  else (((r * 0xFFFF) % 2 ^ 32 : ℕ) / (a : ℝ),
        ((g * 0xFFFF) % 2 ^ 32 : ℕ) / (a : ℝ),
        ((b * 0xFFFF) % 2 ^ 32 : ℕ) / (a : ℝ),
        (a : ℝ))

/-- BT.601 red weight (go line 68). -/
noncomputable def WR : ℝ := 0.299

/-- BT.601 green weight (go line 69). -/
noncomputable def WG : ℝ := 0.587

/-- BT.601 blue weight (go line 70). -/
noncomputable def WB : ℝ := 0.114

/-- Model of `toYUV` (go lines 221-225). -/
noncomputable def toYUV (r g b : ℝ) : ℝ × ℝ × ℝ :=
  (WR * r + WG * g + WB * b,
   0.492 * (b - (WR * r + WG * g + WB * b)),
   0.877 * (r - (WR * r + WG * g + WB * b)))

/-- Model of `euclideanDistance` (go lines 227-229). -/
noncomputable def euclideanDistance (a x b y c z : ℝ) : ℝ :=
  Real.sqrt ((a - x) ^ 2 + (b - y) ^ 2 + (c - z) ^ 2)

/-- The color-space selector. `parseArguments` admits exactly the strings
RGB and YUV-prime; `other` stands for any further string, on which the
switch in `compareImages` leaves the distance at its zero value. -/
inductive ColorSpace where
  | RGB : ColorSpace
  | YUV : ColorSpace
  | other : ColorSpace
deriving DecidableEq

/-- Per-pixel distance of the switch in go lines 248-255: Euclidean
distance over the straight RGB triples, or over the converted YUV
triples, divided by 113510.0 in both cases. -/
noncomputable def pixelDist (cs : ColorSpace) (r1 g1 b1 r2 g2 b2 : ℝ) : ℝ :=
  match cs with
  | ColorSpace.RGB => euclideanDistance r1 r2 g1 g2 b1 b2 / 113510
  | ColorSpace.YUV =>
      euclideanDistance (toYUV r1 g1 b1).1 (toYUV r2 g2 b2).1
        (toYUV r1 g1 b1).2.1 (toYUV r2 g2 b2).2.1
        (toYUV r1 g1 b1).2.2 (toYUV r2 g2 b2).2.2 / 113510
  | ColorSpace.other => 0

/-- The reference-pixel alpha fraction `a2 / 65535` of go line 258. -/
noncomputable def alphaFrac (p : Pixel) : ℝ :=
  (toNRGBA p.r p.g p.b p.a).2.2.2 / 65535

/-- Go line 259-261: the scan aborts (panics) at a pixel whose alpha
fraction leaves [0, 1]. -/
def abortsAt (refImg : img) (x y : ℕ) : Prop :=
  alphaFrac (refImg.pix x y) < 0 ∨ 1 < alphaFrac (refImg.pix x y)

/-- Does any scanned pixel abort the scan. The x bound is the base image
width, as in the loop of go line 242. -/
def scanAborts (wBound : ℕ) (refImg : img) (yOffset yCount : ℕ) : Prop :=
  ∃ y < yCount, ∃ x < wBound, abortsAt refImg x (yOffset + y)

/-- One iteration of the inner loop (go lines 243-263): the distance of
the two straight-RGB pixels in the active color space, weighted by the
reference alpha fraction. The base alpha is dropped (go line 244). -/
noncomputable def pixelTerm (cs : ColorSpace) (baseImg refImg : img) (x y : ℕ) : ℝ :=
  pixelDist cs
    (toNRGBA (baseImg.pix x y).r (baseImg.pix x y).g (baseImg.pix x y).b (baseImg.pix x y).a).1
    (toNRGBA (baseImg.pix x y).r (baseImg.pix x y).g (baseImg.pix x y).b (baseImg.pix x y).a).2.1
    (toNRGBA (baseImg.pix x y).r (baseImg.pix x y).g (baseImg.pix x y).b (baseImg.pix x y).a).2.2.1
    (toNRGBA (refImg.pix x y).r (refImg.pix x y).g (refImg.pix x y).b (refImg.pix x y).a).1
    (toNRGBA (refImg.pix x y).r (refImg.pix x y).g (refImg.pix x y).b (refImg.pix x y).a).2.1
    (toNRGBA (refImg.pix x y).r (refImg.pix x y).g (refImg.pix x y).b (refImg.pix x y).a).2.2.1
    * alphaFrac (refImg.pix x y)

/-- The accumulated sum `cul` of the double loop in go lines 240-265. -/
noncomputable def scanSum (cs : ColorSpace) (baseImg refImg : img) (yOffset yCount : ℕ) : ℝ :=
  ∑ y ∈ Finset.range yCount, ∑ x ∈ Finset.range baseImg.w,
    pixelTerm cs baseImg refImg x (yOffset + y)

/-- A float64 value of the aggregation: either the one NaN the code can
produce (0/0 when the pixel count is zero) or a finite real. -/
inductive FVal where
  | nan : FVal
  | fin : ℝ → FVal

/-- Model of the `difference` record (go lines 90-95). -/
structure difference where
  score : FVal
  minValue : ℝ
  maxValue : ℝ
  roundingErrorFactor : ℝ

open Classical in
/-- Model of `compareImages` (go lines 234-272): abort (`none`) when some
scanned pixel fails the alpha-fraction check; otherwise divide the sum by
the pixel count, multiply by the rounding-error factor 1.25, and clamp
values above 1.0 down to 1.0. A zero pixel count makes the Go division
0.0/0.0, a NaN, which the clamp (a `>` comparison, false on NaN) keeps. -/
noncomputable def compareImages (cs : ColorSpace) (baseImg refImg : img)
    (yOffset yCount : ℕ) : Option difference :=
  if scanAborts baseImg.w refImg yOffset yCount then none
  else if yCount * baseImg.w = 0 then
    some ⟨FVal.nan, 0, 1, 1.25⟩
  else
    some ⟨FVal.fin
      (if 1 < scanSum cs baseImg refImg yOffset yCount / ((yCount * baseImg.w : ℕ) : ℝ) * 1.25
       then 1
       else scanSum cs baseImg refImg yOffset yCount / ((yCount * baseImg.w : ℕ) : ℝ) * 1.25),
      0, 1, 1.25⟩

/-- Outcome of the exported `CompareImages` (go lines 274-288) after the
two images have been decoded; decoding itself reads files and stays
outside the model. -/
inductive CmpOutcome where
  | dimMismatch : ℕ → ℕ → ℕ → ℕ → CmpOutcome
  | aborted : CmpOutcome
  | ok : difference → CmpOutcome

/-- Model of `CompareImages` (go lines 274-288): reject unequal
dimensions before any pixel work, otherwise scan all rows from 0. -/
noncomputable def CompareImages (cs : ColorSpace) (baseImg refImg : img) : CmpOutcome :=
  if baseImg.w = refImg.w ∧ baseImg.h = refImg.h then
    match compareImages cs baseImg refImg 0 baseImg.h with
    | none => CmpOutcome.aborted
    | some d => CmpOutcome.ok d
  else CmpOutcome.dimMismatch baseImg.w baseImg.h refImg.w refImg.h

/-- The percentage of go line 347: `(100*score - minValue) / (maxValue -
minValue)`; NaN propagates. -/
noncomputable def percentOf (d : difference) : FVal :=
  match d.score with
  | FVal.nan => FVal.nan
  | FVal.fin s => FVal.fin ((100 * s - d.minValue) / (d.maxValue - d.minValue))

/-- The Go conversion `int(x)`: truncation toward zero for a finite
float; undefined (`none`) on NaN. -/
noncomputable def goInt : FVal → Option ℤ
  | FVal.nan => none
  | FVal.fin x => some (if 0 ≤ x then ⌊x⌋ else -⌊-x⌋)

/-- The exit code of a completed (non-timeout) run of `main` (go lines
318-343 repeat the checks of `CompareImages`, then lines 346-351 exit
with the truncated percentage; line 332 exits 101 on a dimension
mismatch, and an abort never reaches the exit). -/
noncomputable def mainExit (cs : ColorSpace) (baseImg refImg : img) : Option ℤ :=
  match CompareImages cs baseImg refImg with
  | CmpOutcome.dimMismatch _ _ _ _ => some 101
  | CmpOutcome.aborted => none
  | CmpOutcome.ok d => goInt (percentOf d)

/-- Clamping to the closed interval [0, 1], as the specification words
the aggregation step. -/
noncomputable def clamp01 (x : ℝ) : ℝ := max 0 (min 1 x)

/-- The straight RGB color a pixel encodes: the first three components of
the `toNRGBA` conversion. -/
noncomputable def straightRGB (p : Pixel) : ℝ × ℝ × ℝ :=
  ((toNRGBA p.r p.g p.b p.a).1, (toNRGBA p.r p.g p.b p.a).2.1,
   (toNRGBA p.r p.g p.b p.a).2.2.1)

/-! ### Helper lemmas for the pixel model -/

theorem toNRGBA_alpha (r g b a : ℕ) : (toNRGBA r g b a).2.2.2 = (a : ℝ) := by
  unfold toNRGBA
  by_cases h : a = 0
  · simp [h]
  · simp [h]

theorem alphaFrac_nonneg (p : Pixel) : 0 ≤ alphaFrac p := by
  unfold alphaFrac
  rw [toNRGBA_alpha]
  positivity

theorem alphaFrac_le_one {p : Pixel} (h : p.a ≤ 0xFFFF) : alphaFrac p ≤ 1 := by
  unfold alphaFrac
  rw [toNRGBA_alpha]
  rw [div_le_one (by norm_num)]
  exact_mod_cast h

theorem pixelDist_nonneg (cs : ColorSpace) (r1 g1 b1 r2 g2 b2 : ℝ) :
    0 ≤ pixelDist cs r1 g1 b1 r2 g2 b2 := by
  unfold pixelDist euclideanDistance
  cases cs
  · positivity
  · positivity
  · exact le_refl 0

theorem pixelTerm_nonneg (cs : ColorSpace) (baseImg refImg : img) (x y : ℕ) :
    0 ≤ pixelTerm cs baseImg refImg x y := by
  unfold pixelTerm
  exact mul_nonneg (pixelDist_nonneg _ _ _ _ _ _ _) (alphaFrac_nonneg _)

theorem scanSum_nonneg (cs : ColorSpace) (baseImg refImg : img) (yOffset yCount : ℕ) :
    0 ≤ scanSum cs baseImg refImg yOffset yCount := by
  unfold scanSum
  refine Finset.sum_nonneg fun y _ => Finset.sum_nonneg fun x _ => ?_
  exact pixelTerm_nonneg _ _ _ _ _

theorem not_abortsAt_of_bounded {refImg : img} {x y : ℕ}
    (h : (refImg.pix x y).a ≤ 0xFFFF) : ¬ abortsAt refImg x y := by
  unfold abortsAt
  push_neg
  exact ⟨alphaFrac_nonneg _, alphaFrac_le_one h⟩

theorem not_scanAborts_of_bounded {refImg : img}
    (h : ∀ x y, (refImg.pix x y).a ≤ 0xFFFF) (wBound yOffset yCount : ℕ) :
    ¬ scanAborts wBound refImg yOffset yCount := by
  unfold scanAborts
  push_neg
  intro y _ x _
  exact not_abortsAt_of_bounded (h x (yOffset + y))

/-- Evaluation of `compareImages` when no pixel aborts and at least one
pixel is scanned. -/
theorem compareImages_eval {cs : ColorSpace} {baseImg refImg : img}
    {yOffset yCount : ℕ}
    (hab : ¬ scanAborts baseImg.w refImg yOffset yCount)
    (hn : yCount * baseImg.w ≠ 0) :
    compareImages cs baseImg refImg yOffset yCount =
      some ⟨FVal.fin
        (if 1 < scanSum cs baseImg refImg yOffset yCount / ((yCount * baseImg.w : ℕ) : ℝ) * 1.25
         then 1
         else scanSum cs baseImg refImg yOffset yCount / ((yCount * baseImg.w : ℕ) : ℝ) * 1.25),
        0, 1, 1.25⟩ := by
  unfold compareImages
  rw [if_neg hab, if_neg hn]

/-- Evaluation of `compareImages` at a zero pixel count: the score is the
NaN of the division 0.0/0.0. -/
theorem compareImages_eval_empty {cs : ColorSpace} {baseImg refImg : img}
    {yOffset yCount : ℕ}
    (hab : ¬ scanAborts baseImg.w refImg yOffset yCount)
    (hn : yCount * baseImg.w = 0) :
    compareImages cs baseImg refImg yOffset yCount = some ⟨FVal.nan, 0, 1, 1.25⟩ := by
  unfold compareImages
  rw [if_neg hab, if_pos hn]

/-- The clamped score of a nonempty, non-aborting scan lies in [0, 1] and
equals the two-sided clamp of the corrected mean. -/
theorem score_clamped {cs : ColorSpace} {baseImg refImg : img} {yOffset yCount : ℕ} :
    (if 1 < scanSum cs baseImg refImg yOffset yCount / ((yCount * baseImg.w : ℕ) : ℝ) * 1.25
     then (1 : ℝ)
     else scanSum cs baseImg refImg yOffset yCount / ((yCount * baseImg.w : ℕ) : ℝ) * 1.25) =
      clamp01 (scanSum cs baseImg refImg yOffset yCount / ((yCount * baseImg.w : ℕ) : ℝ) * 1.25) ∧
    0 ≤ clamp01 (scanSum cs baseImg refImg yOffset yCount / ((yCount * baseImg.w : ℕ) : ℝ) * 1.25) ∧
    clamp01 (scanSum cs baseImg refImg yOffset yCount / ((yCount * baseImg.w : ℕ) : ℝ) * 1.25) ≤ 1 := by
  have hraw : 0 ≤ scanSum cs baseImg refImg yOffset yCount / ((yCount * baseImg.w : ℕ) : ℝ) * 1.25 := by
    have := scanSum_nonneg cs baseImg refImg yOffset yCount
    positivity
  unfold clamp01
  refine ⟨?_, ?_, ?_⟩
  · by_cases h1 : 1 < scanSum cs baseImg refImg yOffset yCount / ((yCount * baseImg.w : ℕ) : ℝ) * 1.25
    · rw [if_pos h1, min_eq_left (le_of_lt h1), max_eq_right zero_le_one]
    · push_neg at h1
      rw [if_neg (not_lt.mpr h1), min_eq_right h1, max_eq_right hraw]
  · exact le_max_left _ _
  · exact max_le (by norm_num) (min_le_left _ _)

/-- Truncation of 100 times an in-range score: the integer floor, within
[0, 100]. -/
theorem goInt_percent {s : ℝ} (h0 : 0 ≤ s) (h1 : s ≤ 1) :
    goInt (percentOf ⟨FVal.fin s, 0, 1, 1.25⟩) = some ⌊100 * s⌋ ∧
    0 ≤ ⌊100 * s⌋ ∧ ⌊100 * s⌋ ≤ 100 := by
  have hp : (100 * s - 0) / (1 - 0) = 100 * s := by ring
  refine ⟨?_, ?_, ?_⟩
  · unfold goInt percentOf
    simp only [hp]
    rw [if_pos (by positivity)]
  · exact Int.floor_nonneg.mpr (by positivity)
  · calc ⌊100 * s⌋ ≤ ⌊(100 : ℝ)⌋ := Int.floor_le_floor (by nlinarith)
    _ = 100 := by norm_num

/-! ### Helper lemmas for the duration parser -/

theorem parseDigits_some {s : List Char} {n : ℕ} (h : parseDigits s = some n) :
    s ≠ [] ∧ s.all isDigitGo = true := by
  unfold parseDigits at h
  by_cases he : s = []
  · simp [he] at h
  · refine ⟨he, ?_⟩
    by_cases ha : s.all isDigitGo = true
    · exact ha
    · simp [he, ha] at h

theorem atoi_some_shape {s : List Char} {v : ℤ} (h : atoi s = some v) :
    stripSign s ≠ [] ∧ (stripSign s).all isDigitGo = true := by
  unfold atoi at h
  cases hp : parseDigits (stripSign s) with
  | none => rw [hp] at h; simp at h
  | some n => exact parseDigits_some hp

theorem unsignedDurShape_digits {l : List Char} (h1 : l ≠ [])
    (h2 : l.all isDigitGo = true) : unsignedDurShape l = true := by
  unfold unsignedDurShape
  have : l.isEmpty = false := by
    cases l with
    | nil => exact absurd rfl h1
    | cons c t => rfl
  rw [this, h2]
  simp

theorem all_reverse_go (l : List Char) (p : Char → Bool) :
    l.reverse.all p = l.all p := by
  simp [List.all_eq_true]

theorem unsignedDurShape_suffix {l : List Char} {c : Char} (h1 : l ≠ [])
    (h2 : l.all isDigitGo = true) (h3 : suffixOk c = true) :
    unsignedDurShape (l ++ [c]) = true := by
  unfold unsignedDurShape
  have hrev : (l ++ [c]).reverse = c :: l.reverse := by simp
  rw [hrev]
  cases hl : l.reverse with
  | nil =>
      exact absurd (by simpa using congrArg List.reverse hl) h1
  | cons d t =>
      have hall : (d :: t).all isDigitGo = true := by
        rw [← hl, all_reverse_go]; exact h2
      simp [h3, hall]

theorem stripSign_append {l l2 : List Char} (h : l ≠ []) :
    stripSign (l ++ l2) = stripSign l ++ l2 := by
  cases l with
  | nil => exact absurd rfl h
  | cons c t =>
      unfold stripSign
      by_cases hc : (c == '+' || c == '-') = true
      · simp [hc]
      · simp only [Bool.not_eq_true] at hc
        simp [hc]

theorem take_append_singleton (l : List Char) (c : Char) :
    (l ++ [c]).take l.length = l := by
  induction l with
  | nil => rfl
  | cons x t ih => simp [List.take, ih]

/-- Every successfully parsed specifier, after the TrimSpace/ToLower
normalisation, is an optionally signed integer with at most one unit
suffix from i, s, m, h. -/
theorem readDurationCore_some_shape {t : List Char}
    (h : readDurationCore t ≠ none) : signedDurShape t = true := by
  unfold readDurationCore at h
  cases hrev : t.reverse with
  | nil => rw [hrev] at h; simp at h
  | cons lastc rest =>
      rw [hrev] at h
      simp only at h
      have ht : t = rest.reverse ++ [lastc] := by
        have := congrArg List.reverse hrev
        simpa using this
      by_cases hd : isDigitGo lastc = true
      · rw [if_pos hd] at h
        rw [List.take_length] at h
        cases ha : atoi t with
        | none => rw [ha] at h; simp at h
        | some val =>
            obtain ⟨hne, hall⟩ := atoi_some_shape ha
            unfold signedDurShape
            exact unsignedDurShape_digits hne hall
      · rw [if_neg hd] at h
        have hlen : t.length - 1 = rest.reverse.length := by
          rw [ht]; simp
        rw [hlen, ht, take_append_singleton] at h
        cases ha : atoi rest.reverse with
        | none => rw [ha] at h; simp at h
        | some val =>
            rw [ha] at h
            simp only [if_neg hd] at h
            have hs : suffixOk lastc = true := by
              by_cases hi : (lastc == 'i') = true
              · simp [suffixOk, hi]
              · by_cases hss : (lastc == 's') = true
                · simp [suffixOk, hss]
                · by_cases hm : (lastc == 'm') = true
                  · simp [suffixOk, hm]
                  · by_cases hh : (lastc == 'h') = true
                    · simp [suffixOk, hh]
                    · simp only [Bool.not_eq_true] at hi hss hm hh
                      rw [hi, hss, hm, hh] at h
                      simp at h
            obtain ⟨hne, hall⟩ := atoi_some_shape ha
            have hne2 : rest.reverse ≠ [] := by
              intro hc
              rw [hc] at hne
              exact hne rfl
            unfold signedDurShape
            rw [ht, stripSign_append hne2]
            exact unsignedDurShape_suffix hne hall hs

/-- C3 amended claim, part 2 packaged over the raw input string. -/
theorem readDurationSpecifier_some_shape {s : List Char}
    (h : readDurationSpecifier s ≠ none) :
    signedDurShape ((trimSpace s).map toLowerGo) = true :=
  readDurationCore_some_shape h

end ScreenshotCompare

namespace ScreenshotCompare

/-! ### Concrete images used by witnesses and counterexamples -/

/-- Constant image of the given dimensions. -/
def constImg (w h : ℕ) (p : Pixel) : img := ⟨w, h, fun _ _ => p⟩

/-- Opaque black, 1 by 1. -/
def blackImg : img := constImg 1 1 ⟨0, 0, 0, 0xFFFF⟩

/-- Opaque white, 1 by 1. -/
def whiteImg : img := constImg 1 1 ⟨0xFFFF, 0xFFFF, 0xFFFF, 0xFFFF⟩

/-- Fully transparent black, 1 by 1. -/
def clearImg : img := constImg 1 1 ⟨0, 0, 0, 0⟩

/-- Image with zero width and height. -/
def emptyImg : img := constImg 0 0 ⟨0, 0, 0, 0⟩

/-- Image with positive width but zero height (zero pixels). -/
def rowlessImg : img := constImg 3 0 ⟨1, 2, 3, 0⟩

/-- Opaque black, 2 by 1: a dimension mismatch against the 1 by 1 images. -/
def wideImg : img := constImg 2 1 ⟨0, 0, 0, 0xFFFF⟩

/-- Premultiplied pixel of the straight gray (100, 100, 100) at full alpha. -/
def baseOpaque : img := constImg 1 1 ⟨100, 100, 100, 0xFFFF⟩

/-- Premultiplied pixel of the same straight gray (100, 100, 100) at
alpha 13107 = 65535/5: the channel values scale down to 20. -/
def baseFifth : img := constImg 1 1 ⟨20, 20, 20, 13107⟩

end ScreenshotCompare

namespace ScreenshotCompare

/-- The inner-loop term written through `straightRGB`: `compareImages`
reads only the straight RGB triple of the base pixel and the straight RGB
triple plus alpha of the reference pixel. -/
theorem pixelTerm_straight (cs : ColorSpace) (baseImg refImg : img) (x y : ℕ) :
    pixelTerm cs baseImg refImg x y =
      pixelDist cs (straightRGB (baseImg.pix x y)).1 (straightRGB (baseImg.pix x y)).2.1
        (straightRGB (baseImg.pix x y)).2.2 (straightRGB (refImg.pix x y)).1
        (straightRGB (refImg.pix x y)).2.1 (straightRGB (refImg.pix x y)).2.2 *
      alphaFrac (refImg.pix x y) := rfl

/-! ### The claims -/

/-- C1 (amended): for well-formed images of identical dimensions with at
least one pixel, the score computed by `compareImages` and returned by
`CompareImages` is a finite real in [0, 1], and the percentage printed
and used as the exit code is an integer in [0, 100]. (At zero pixels the
Go mean is the NaN 0.0/0.0; see the counterexample.) -/
theorem score_and_percent_in_range (cs : ColorSpace) (baseImg refImg : img)
    (hw : baseImg.w = refImg.w) (hh : baseImg.h = refImg.h)
    (_hwf : wellFormed baseImg) (hwf2 : wellFormed refImg)
    (hn : 0 < baseImg.h * baseImg.w) :
    ∃ s : ℝ, CompareImages cs baseImg refImg = CmpOutcome.ok ⟨FVal.fin s, 0, 1, 1.25⟩ ∧
      0 ≤ s ∧ s ≤ 1 ∧
      ∃ e : ℤ, mainExit cs baseImg refImg = some e ∧ 0 ≤ e ∧ e ≤ 100 := by
  have hab : ¬ scanAborts baseImg.w refImg 0 baseImg.h :=
    not_scanAborts_of_bounded (fun x y => (hwf2 x y).2.2.2) _ _ _
  have hn' : baseImg.h * baseImg.w ≠ 0 := Nat.pos_iff_ne_zero.mp hn
  obtain ⟨hclamp, h0, h1⟩ := @score_clamped cs baseImg refImg 0 baseImg.h
  have hC : CompareImages cs baseImg refImg =
      CmpOutcome.ok ⟨FVal.fin (clamp01 (scanSum cs baseImg refImg 0 baseImg.h /
        ((baseImg.h * baseImg.w : ℕ) : ℝ) * 1.25)), 0, 1, 1.25⟩ := by
    unfold CompareImages
    rw [if_pos ⟨hw, hh⟩, compareImages_eval hab hn', hclamp]
  obtain ⟨hg, he0, he1⟩ := goInt_percent h0 h1
  refine ⟨_, hC, h0, h1, ⌊(100 : ℝ) * clamp01 (scanSum cs baseImg refImg 0 baseImg.h /
    ((baseImg.h * baseImg.w : ℕ) : ℝ) * 1.25)⌋, ?_, he0, he1⟩
  unfold mainExit
  rw [hC]
  exact hg

/-- C1 witness: opaque black against opaque white, 1 by 1. -/
theorem score_and_percent_in_range_witness :
    ∃ s : ℝ, CompareImages ColorSpace.RGB blackImg whiteImg =
        CmpOutcome.ok ⟨FVal.fin s, 0, 1, 1.25⟩ ∧
      0 ≤ s ∧ s ≤ 1 ∧
      ∃ e : ℤ, mainExit ColorSpace.RGB blackImg whiteImg = some e ∧ 0 ≤ e ∧ e ≤ 100 :=
  score_and_percent_in_range ColorSpace.RGB blackImg whiteImg rfl rfl
    (fun _ _ => ⟨Nat.zero_le _, Nat.zero_le _, Nat.zero_le _, le_rfl⟩)
    (fun _ _ => ⟨le_rfl, le_rfl, le_rfl, le_rfl⟩) (by decide)

/-- C1 counterexample: at a pair of images with zero pixels the score is
the NaN 0.0/0.0, not a real in [0, 1], and no percentage exit code in
[0, 100] is derived from it. -/
theorem score_nan_on_zero_pixels :
    CompareImages ColorSpace.RGB emptyImg emptyImg =
      CmpOutcome.ok ⟨FVal.nan, 0, 1, 1.25⟩ ∧
    mainExit ColorSpace.RGB emptyImg emptyImg = none := by
  have hab : ¬ scanAborts emptyImg.w emptyImg 0 emptyImg.h :=
    not_scanAborts_of_bounded (fun _ _ => Nat.zero_le _) _ _ _
  have hC : CompareImages ColorSpace.RGB emptyImg emptyImg =
      CmpOutcome.ok ⟨FVal.nan, 0, 1, 1.25⟩ := by
    unfold CompareImages
    rw [if_pos ⟨rfl, rfl⟩, compareImages_eval_empty hab (by decide)]
  refine ⟨hC, ?_⟩
  unfold mainExit
  rw [hC]
  rfl

/-- C2: a configured timeout of exactly zero is unbounded: the timer
goroutine never sends, the only message that can arrive on the result
channel is the completion of the scan, and the exit code is never the
timeout code 102 taken from the timer branch. -/
theorem zero_timeout_never_times_out :
    timerSignals 0 = false ∧
    (∀ m : RaceMsg, canArrive 0 m = true → m = RaceMsg.completed) ∧
    (∀ m : RaceMsg, canArrive 0 m = true → ∀ k : ℤ, exitAfterRace m k = k) := by
  refine ⟨rfl, ?_, ?_⟩
  · intro m hm
    cases m
    · simp [canArrive, timerSignals] at hm
    · rfl
  · intro m hm k
    cases m
    · simp [canArrive, timerSignals] at hm
    · rfl

/-- C3 (amended): the five documented mappings hold, and every accepted
specifier is, after TrimSpace and ToLower, an OPTIONALLY SIGNED integer
followed by one of the suffixes i, s, m, h or by no suffix; everything
else is rejected. (The unsigned-only reading fails: see the
counterexample, a signed literal the parser accepts.) -/
theorem readDurationSpecifier_spec :
    readDurationSpecifier ("1s".toList) = some (1 * Second) ∧
    readDurationSpecifier ("500i".toList) = some (500 * Millisecond) ∧
    readDurationSpecifier ("30m".toList) = some (30 * Minute) ∧
    readDurationSpecifier ("2h".toList) = some (2 * Hour) ∧
    readDurationSpecifier ("5".toList) = some (5 * Second) ∧
    readDurationSpecifier ("".toList) = none ∧
    ∀ s : List Char, readDurationSpecifier s ≠ none →
      signedDurShape ((trimSpace s).map toLowerGo) = true := by
  refine ⟨by decide, by decide, by decide, by decide, by decide, by decide, ?_⟩
  intro s h
  exact readDurationSpecifier_some_shape h

/-- C3 counterexample: the signed literal -5s is not an unsigned integer
with a unit suffix (not even after normalisation), yet the parser accepts
it and returns minus five seconds instead of an error. -/
theorem readDurationSpecifier_accepts_signed :
    unsignedDurShape ((trimSpace ("-5s".toList)).map toLowerGo) = false ∧
    readDurationSpecifier ("-5s".toList) = some (-(5 * Second)) := by decide

/-- C4 (amended): a reference image that is fully transparent everywhere
masks every difference: for any base content and any pixel count of at
least one, the score is exactly 0. (At zero pixels the score is the NaN
0.0/0.0 instead; see the counterexample.) -/
theorem transparent_ref_scores_zero (cs : ColorSpace) (baseImg refImg : img)
    (hw : baseImg.w = refImg.w) (hh : baseImg.h = refImg.h)
    (ha : ∀ x y, (refImg.pix x y).a = 0)
    (hn : 0 < baseImg.h * baseImg.w) :
    CompareImages cs baseImg refImg = CmpOutcome.ok ⟨FVal.fin 0, 0, 1, 1.25⟩ := by
  have hab : ¬ scanAborts baseImg.w refImg 0 baseImg.h :=
    not_scanAborts_of_bounded (fun x y => by rw [ha x y]; norm_num) _ _ _
  have hsum : scanSum cs baseImg refImg 0 baseImg.h = 0 := by
    unfold scanSum
    refine Finset.sum_eq_zero fun y _ => Finset.sum_eq_zero fun x _ => ?_
    unfold pixelTerm alphaFrac
    rw [toNRGBA_alpha, ha x (0 + y)]
    simp
  unfold CompareImages
  rw [if_pos ⟨hw, hh⟩, compareImages_eval hab (Nat.pos_iff_ne_zero.mp hn), hsum,
    zero_div, zero_mul, if_neg (by norm_num : ¬ (1 : ℝ) < 0)]

/-- C4 witness: opaque black base against a fully transparent reference. -/
theorem transparent_ref_scores_zero_witness :
    CompareImages ColorSpace.RGB blackImg clearImg =
      CmpOutcome.ok ⟨FVal.fin 0, 0, 1, 1.25⟩ :=
  transparent_ref_scores_zero ColorSpace.RGB blackImg clearImg rfl rfl
    (fun _ _ => rfl) (by decide)

/-- C4 counterexample: a pair of equal dimensions 3 by 0 whose reference
is fully transparent at every pixel, yet the score is the NaN 0.0/0.0,
not 0.0. -/
theorem transparent_ref_empty_scores_nan :
    (∀ x y, (rowlessImg.pix x y).a = 0) ∧
    CompareImages ColorSpace.RGB rowlessImg rowlessImg =
      CmpOutcome.ok ⟨FVal.nan, 0, 1, 1.25⟩ ∧
    FVal.nan ≠ FVal.fin 0 := by
  have hab : ¬ scanAborts rowlessImg.w rowlessImg 0 rowlessImg.h :=
    not_scanAborts_of_bounded (fun _ _ => Nat.zero_le _) _ _ _
  refine ⟨fun _ _ => rfl, ?_, by simp⟩
  unfold CompareImages
  rw [if_pos ⟨rfl, rfl⟩, compareImages_eval_empty hab (by decide)]

/-- C5: the aggregator computes mean = sum / count over the accumulated
weighted distances and the pixel count, multiplies by the fixed
rounding-error factor 1.25 and clamps into [0, 1]; the presentation
multiplies the score by 100 and takes the integer floor, in [0, 100]. -/
theorem aggregator_and_presentation (cs : ColorSpace) (baseImg refImg : img)
    (yOffset yCount : ℕ)
    (hab : ¬ scanAborts baseImg.w refImg yOffset yCount)
    (hn : yCount * baseImg.w ≠ 0) :
    compareImages cs baseImg refImg yOffset yCount =
      some ⟨FVal.fin (clamp01 (scanSum cs baseImg refImg yOffset yCount /
        ((yCount * baseImg.w : ℕ) : ℝ) * 1.25)), 0, 1, 1.25⟩ ∧
    (∀ s : ℝ, 0 ≤ s → s ≤ 1 →
      goInt (percentOf ⟨FVal.fin s, 0, 1, 1.25⟩) = some ⌊100 * s⌋ ∧
      0 ≤ ⌊100 * s⌋ ∧ ⌊100 * s⌋ ≤ 100) := by
  constructor
  · rw [compareImages_eval hab hn,
      (@score_clamped cs baseImg refImg yOffset yCount).1]
  · intro s h0 h1
    exact goInt_percent h0 h1

/-- C5 witness: the aggregation formula at the opaque 1 by 1 pair. -/
theorem aggregator_and_presentation_witness :
    compareImages ColorSpace.RGB blackImg whiteImg 0 1 =
      some ⟨FVal.fin (clamp01 (scanSum ColorSpace.RGB blackImg whiteImg 0 1 /
        ((1 * blackImg.w : ℕ) : ℝ) * 1.25)), 0, 1, 1.25⟩ :=
  (aggregator_and_presentation ColorSpace.RGB blackImg whiteImg 0 1
    (not_scanAborts_of_bounded (fun _ _ => le_rfl) _ _ _) (by decide)).1

/-- C6: the per-pixel distance is the Euclidean distance over the three
components of the active color space divided by the constant 113510.0;
the YUV components come from straight RGB with the fixed BT.601 weights
0.299, 0.587, 0.114 and the chroma factors 0.492 and 0.877; the divisor
113510.0 is the same in both color spaces; and the scanned term is that
distance weighted by the reference alpha fraction. -/
theorem pixel_distance_formula :
    (∀ r1 g1 b1 r2 g2 b2 : ℝ, pixelDist ColorSpace.RGB r1 g1 b1 r2 g2 b2 =
        Real.sqrt ((r1 - r2) ^ 2 + (g1 - g2) ^ 2 + (b1 - b2) ^ 2) / 113510) ∧
    (∀ r g b : ℝ, toYUV r g b =
        (0.299 * r + 0.587 * g + 0.114 * b,
         0.492 * (b - (0.299 * r + 0.587 * g + 0.114 * b)),
         0.877 * (r - (0.299 * r + 0.587 * g + 0.114 * b)))) ∧
    (∀ r1 g1 b1 r2 g2 b2 : ℝ, pixelDist ColorSpace.YUV r1 g1 b1 r2 g2 b2 =
        Real.sqrt (((toYUV r1 g1 b1).1 - (toYUV r2 g2 b2).1) ^ 2 +
          ((toYUV r1 g1 b1).2.1 - (toYUV r2 g2 b2).2.1) ^ 2 +
          ((toYUV r1 g1 b1).2.2 - (toYUV r2 g2 b2).2.2) ^ 2) / 113510) ∧
    (∀ cs baseImg refImg x y, pixelTerm cs baseImg refImg x y =
        pixelDist cs (straightRGB (baseImg.pix x y)).1
          (straightRGB (baseImg.pix x y)).2.1 (straightRGB (baseImg.pix x y)).2.2
          (straightRGB (refImg.pix x y)).1 (straightRGB (refImg.pix x y)).2.1
          (straightRGB (refImg.pix x y)).2.2 * alphaFrac (refImg.pix x y)) := by
  refine ⟨fun _ _ _ _ _ _ => rfl, fun r g b => rfl, fun _ _ _ _ _ _ => rfl,
    fun cs baseImg refImg x y => pixelTerm_straight cs baseImg refImg x y⟩

/-- C7: toNRGBA short-circuits alpha 0 to (0, 0, 0, 0) with no division,
so the conversion of a fully transparent pixel produces no NaN; for
positive alpha it returns the straight channels r*0xFFFF/a, g*0xFFFF/a,
b*0xFFFF/a together with the alpha itself. -/
theorem toNRGBA_spec (r g b a : ℕ) :
    (a = 0 → toNRGBA r g b a = (0, 0, 0, 0)) ∧
    (0 < a → r ≤ 0xFFFF → g ≤ 0xFFFF → b ≤ 0xFFFF →
      toNRGBA r g b a = (((r * 0xFFFF : ℕ) : ℝ) / (a : ℝ),
        ((g * 0xFFFF : ℕ) : ℝ) / (a : ℝ), ((b * 0xFFFF : ℕ) : ℝ) / (a : ℝ), (a : ℝ))) := by
  constructor
  · intro h
    unfold toNRGBA
    rw [if_pos h]
  · intro ha hr hg hb
    have hmod : ∀ {c : ℕ}, c ≤ 0xFFFF → (c * 0xFFFF) % 2 ^ 32 = c * 0xFFFF := by
      intro c hc
      apply Nat.mod_eq_of_lt
      calc c * 0xFFFF ≤ 0xFFFF * 0xFFFF := Nat.mul_le_mul_right _ hc
        _ < 2 ^ 32 := by norm_num
    unfold toNRGBA
    rw [if_neg (Nat.pos_iff_ne_zero.mp ha), hmod hr, hmod hg, hmod hb]

/-- C7 witness: the transparent short-circuit at (1, 2, 3, 0) and the
straight conversion at (1, 2, 3, 2). -/
theorem toNRGBA_spec_witness :
    toNRGBA 1 2 3 0 = (0, 0, 0, 0) ∧
    toNRGBA 1 2 3 2 = (((1 * 0xFFFF : ℕ) : ℝ) / ((2 : ℕ) : ℝ),
      ((2 * 0xFFFF : ℕ) : ℝ) / ((2 : ℕ) : ℝ),
      ((3 * 0xFFFF : ℕ) : ℝ) / ((2 : ℕ) : ℝ), ((2 : ℕ) : ℝ)) :=
  ⟨(toNRGBA_spec 1 2 3 0).1 rfl,
   (toNRGBA_spec 1 2 3 2).2 (by decide) (by decide) (by decide) (by decide)⟩

/-- C8: a pair of decoded images with differing width or height is
rejected with the dimension-mismatch outcome, main exits 101, and no
computed score is ever produced for such a pair. -/
theorem dim_mismatch_rejected (cs : ColorSpace) (baseImg refImg : img)
    (h : baseImg.w ≠ refImg.w ∨ baseImg.h ≠ refImg.h) :
    CompareImages cs baseImg refImg =
      CmpOutcome.dimMismatch baseImg.w baseImg.h refImg.w refImg.h ∧
    mainExit cs baseImg refImg = some 101 ∧
    ∀ d : difference, CompareImages cs baseImg refImg ≠ CmpOutcome.ok d := by
  have hne : ¬ (baseImg.w = refImg.w ∧ baseImg.h = refImg.h) := by
    intro hc
    rcases h with h | h
    · exact h hc.1
    · exact h hc.2
  have hC : CompareImages cs baseImg refImg =
      CmpOutcome.dimMismatch baseImg.w baseImg.h refImg.w refImg.h := by
    unfold CompareImages
    rw [if_neg hne]
  refine ⟨hC, ?_, ?_⟩
  · unfold mainExit
    rw [hC]
  · intro d hd
    rw [hC] at hd
    simp at hd

/-- C8 witness: a 1 by 1 image against a 2 by 1 image exits 101. -/
theorem dim_mismatch_rejected_witness :
    mainExit ColorSpace.RGB blackImg wideImg = some 101 :=
  (dim_mismatch_rejected ColorSpace.RGB blackImg wideImg (Or.inl (by decide))).2.1

/-- C9: the base alpha channel is ignored: two base images whose pixels
encode the same straight RGB colors (possibly at different alpha) give
the same comparison result against the same reference image with the
same configuration. -/
theorem base_alpha_ignored (cs : ColorSpace) (base1 base2 refImg : img)
    (hw : base1.w = base2.w)
    (hrgb : ∀ x y, straightRGB (base1.pix x y) = straightRGB (base2.pix x y))
    (yOffset yCount : ℕ) :
    compareImages cs base1 refImg yOffset yCount =
      compareImages cs base2 refImg yOffset yCount := by
  have hsum : scanSum cs base1 refImg yOffset yCount =
      scanSum cs base2 refImg yOffset yCount := by
    unfold scanSum
    rw [hw]
    refine Finset.sum_congr rfl fun y _ => Finset.sum_congr rfl fun x _ => ?_
    rw [pixelTerm_straight, pixelTerm_straight, hrgb x (yOffset + y)]
  unfold compareImages
  rw [hw, hsum]

/-- C9 witness: the same straight gray encoded opaque and at a fifth of
full alpha gives the same result against the opaque white reference. -/
theorem base_alpha_ignored_witness :
    compareImages ColorSpace.RGB baseOpaque whiteImg 0 1 =
      compareImages ColorSpace.RGB baseFifth whiteImg 0 1 :=
  base_alpha_ignored ColorSpace.RGB baseOpaque baseFifth whiteImg rfl
    (fun x y => by
      unfold baseOpaque baseFifth constImg straightRGB toNRGBA
      norm_num) 0 1

/-- C10: with the 16-bit channel values RGBA() returns, the reference
alpha fraction a2/65535 always lies in [0, 1], the abort (panic) guarding
that invariant is unreachable, and compareImages returns a result. -/
theorem alpha_fraction_in_range (cs : ColorSpace) (baseImg refImg : img)
    (yOffset yCount : ℕ) (_hwf : wellFormed baseImg) (hwf2 : wellFormed refImg) :
    (∀ x y, 0 ≤ alphaFrac (refImg.pix x y) ∧ alphaFrac (refImg.pix x y) ≤ 1) ∧
    ¬ scanAborts baseImg.w refImg yOffset yCount ∧
    (compareImages cs baseImg refImg yOffset yCount).isSome = true := by
  have hb : ∀ x y, (refImg.pix x y).a ≤ 0xFFFF := fun x y => (hwf2 x y).2.2.2
  have hab := not_scanAborts_of_bounded hb baseImg.w yOffset yCount
  refine ⟨fun x y => ⟨alphaFrac_nonneg _, alphaFrac_le_one (hb x y)⟩, hab, ?_⟩
  by_cases hn : yCount * baseImg.w = 0
  · rw [compareImages_eval_empty hab hn]
    rfl
  · rw [compareImages_eval hab hn]
    rfl

/-- C10 witness: the guard is unreachable at the opaque 1 by 1 pair. -/
theorem alpha_fraction_in_range_witness :
    (compareImages ColorSpace.RGB blackImg whiteImg 0 1).isSome = true :=
  (alpha_fraction_in_range ColorSpace.RGB blackImg whiteImg 0 1
    (fun _ _ => ⟨Nat.zero_le _, Nat.zero_le _, Nat.zero_le _, le_rfl⟩)
    (fun _ _ => ⟨le_rfl, le_rfl, le_rfl, le_rfl⟩)).2.2

end ScreenshotCompare
